import Mathlib

/-!
Shallow embedding of the CHIP-8 interpreter in `src/chip8.py` (classes
`Display` and `CPU`), together with theorems checking the natural-language
specification against it.

Conventions of the embedding:
* Python integers are unbounded, so registers and memory cells are modelled
  as `ℤ`; where the source masks (`&= 0xFF`, `% 1000`, ...) we write
  `Int.emod`, which agrees with Python `%` on all signs.
* Python `x >> k` (arithmetic shift) is `Int.fdiv x (2 ^ k)` and
  `x & 2^k` tests are expressed through `fdiv`/`emod`, which agree with
  Python's two's-complement bitwise semantics on all integers.
* Lists are indexed with `List.getD`/`List.set`.  All executions appearing
  in the theorems below keep indices in range, where Python and this model
  agree (Python raises on a positive out-of-range plain index; that
  behaviour is not exercised by any claim).
-/

namespace Chip8

/-! ### Display (source class `Display`, constructed with width=64, height=32) -/

/-- The pixel grid `Display.screen`: a list of 32 rows of 64 booleans. -/
abbrev Screen := List (List Bool)

/-- Read pixel `screen[py][px]` (False outside the grid). -/
def screenGet (scr : Screen) (py px : ℕ) : Bool :=
  (scr.getD py []).getD px false

/-- Write pixel `screen[py][px]` (no-op outside the grid). -/
def screenSet (scr : Screen) (py px : ℕ) (b : Bool) : Screen :=
  scr.set py ((scr.getD py []).set px b)

/-- `Display.clear`: every pixel off, 32 rows by 64 columns. -/
def clearScreen : Screen := List.replicate 32 (List.replicate 64 false)

/-- The test `(sprite[y] & (0x80 >> x)) > 0` of `Display.draw`:
bit `7 - x` of the sprite byte, two's complement for negative bytes. -/
def spriteBit (b : ℤ) (x : ℕ) : Bool :=
  b.fdiv (2 ^ (7 - x)) % 2 = 1

/-- One iteration of the inner `for x in range(8)` loop of `Display.draw`:
if the sprite bit is set, OR the pre-toggle pixel into the flag and flip
the pixel at `((start_y + y) % 32, (start_x + x) % 64)`. -/
def drawRowStep (sx sy b : ℤ) (acc : Screen × Bool) (x : ℕ) : Screen × Bool :=
  if spriteBit b x then
    let py : ℕ := (sy % 32).toNat
    let px : ℕ := ((sx + x) % 64).toNat
    (screenSet acc.1 py px (!(screenGet acc.1 py px)), acc.2 || screenGet acc.1 py px)
  else acc

/-- The inner loop `for x in range(8)` of `Display.draw` for one sprite row. -/
def drawRow (scr : Screen) (flag : Bool) (sx sy b : ℤ) : Screen × Bool :=
  (List.range 8).foldl (drawRowStep sx sy b) (scr, flag)

/-- The outer loop `for y in range(len(sprite))` of `Display.draw`:
structural recursion over the rows, advancing `start_y + y` as `y` grows
and accumulating the erased-pixel flag. -/
def drawAux : Screen → Bool → ℤ → ℤ → List ℤ → Screen × Bool
  | scr, flag, _, _, [] => (scr, flag)
  | scr, flag, sx, sy, b :: rest =>
      let p := drawRow scr flag sx sy b
      drawAux p.1 p.2 sx (sy + 1) rest

namespace Display

/-- `Display.draw(start_x, start_y, sprite)`: XOR the sprite onto the screen
with toroidal wrap-around and return the new screen together with the flag
that is true iff some pixel that was on became off. -/
def draw (scr : Screen) (sx sy : ℤ) (sprite : List ℤ) : Screen × Bool :=
  drawAux scr false sx sy sprite

end Display

/-! ### Machine state (source class `CPU`; the `Display` object owned by the
CPU is inlined as the `screen` field, with the constructor-default 64 by 32
geometry).  Wall-clock fields (`start_time`, `next_tick`) only drive
`time.sleep` pacing and never feed back into machine-visible state, so they
are omitted.  `clock_speed` is a field set to 10 by `reset`. -/

structure CPU where
  halt : Bool
  pc : ℤ
  memory : List ℤ
  V : List ℤ
  I : ℤ
  delay : ℤ
  sound : ℤ
  stack : List ℤ
  sp : ℤ
  screen : Screen
  clock_speed : ℕ
  tick : ℕ
deriving DecidableEq

/-- The 80 font bytes written by `CPU._store_hex_sprites` (digits 0-F,
5 bytes each, at `hex_sprite_offset = 0`). -/
def hex_sprites : List ℤ :=
  [0xF0, 0x90, 0x90, 0x90, 0xF0,
   0x20, 0x60, 0x20, 0x20, 0x70,
   0xF0, 0x10, 0xF0, 0x80, 0xF0,
   0xF0, 0x10, 0xF0, 0x10, 0xF0,
   0x90, 0x90, 0xF0, 0x10, 0x10,
   0xF0, 0x80, 0xF0, 0x10, 0xF0,
   0xF0, 0x80, 0xF0, 0x90, 0xF0,
   0xF0, 0x10, 0x20, 0x40, 0x40,
   0xF0, 0x90, 0xF0, 0x90, 0xF0,
   0xF0, 0x90, 0xF0, 0x10, 0xF0,
   0xF0, 0x90, 0xF0, 0x90, 0x90,
   0xE0, 0x90, 0xE0, 0x90, 0xE0,
   0xF0, 0x80, 0x80, 0x80, 0xF0,
   0xE0, 0x90, 0x90, 0x90, 0xE0,
   0xF0, 0x80, 0xF0, 0x80, 0xF0,
   0xF0, 0x80, 0xF0, 0x80, 0x80]

/-- `CPU._store_hex_sprites`: the sixteen successive 5-byte slice
assignments replace cells 0..79 of memory. -/
def store_hex_sprites (mem : List ℤ) : List ℤ :=
  hex_sprites ++ mem.drop 80

/-- `CPU.reset` followed by the fresh `Display()` of `CPU.__init__`:
pc = 0x200, memory of 0xFFF zero cells with the font block written,
zeroed registers, stack, timers and a cleared screen. -/
def reset : CPU where
  halt := false
  pc := 0x200
  memory := store_hex_sprites (List.replicate 0xFFF 0)
  V := List.replicate 16 0
  I := 0
  delay := 0
  sound := 0
  stack := List.replicate 16 0
  sp := 0
  screen := clearScreen
  clock_speed := 10
  tick := 0

/-- `CPU.load(program)`: Python slice assignment
`memory[pc : pc + len(program)] = program` (the source performs no bounds
check; a program longer than the remaining memory extends the list). -/
def load (s : CPU) (program : List ℤ) : CPU :=
  { s with memory :=
      s.memory.take s.pc.toNat ++ program ++ s.memory.drop (s.pc.toNat + program.length) }

/-- `CPU._execute(opcode)`.  The decode fields follow the source masks:
`addr = opcode & 0x0FFF`, `x = (opcode & 0x0F00) >> 8`,
`y = (opcode & 0x00F0) >> 4`, `kk = opcode & 0x00FF`, written
arithmetically for a natural-number opcode.  `rnd` models the value of
`random.randint(0, 0xFF)` consumed by `0xCxkk` and `key` the hex digit
read from stdin by `0xFx0A`; neither affects any other branch. -/
def execute (rnd key : ℕ) (op : ℕ) (s : CPU) : CPU :=
  let addr : ℤ := (op % 4096 : ℕ)
  let x : ℕ := op / 256 % 16
  let y : ℕ := op / 16 % 16
  let kk : ℤ := (op % 256 : ℕ)
  if op = 0x00E0 then
    -- CLS
    { s with screen := clearScreen }
  else if op = 0x00EE then
    -- RET
    { s with sp := s.sp - 1, pc := s.stack.getD (s.sp - 1).toNat 0 }
  else if op / 4096 % 16 = 0x1 then
    -- JP addr
    { s with pc := addr }
  else if op / 4096 % 16 = 0x2 then
    -- CALL addr
    { s with stack := s.stack.set s.sp.toNat s.pc, sp := s.sp + 1, pc := addr }
  else if op / 4096 % 16 = 0x3 then
    -- SE Vx, byte
    if s.V.getD x 0 = kk then { s with pc := s.pc + 2 } else s
  else if op / 4096 % 16 = 0x4 then
    -- SNE Vx, byte
    if s.V.getD x 0 ≠ kk then { s with pc := s.pc + 2 } else s
  else if op / 4096 % 16 = 0x5 then
    -- SE Vx, Vy
    if s.V.getD x 0 = s.V.getD y 0 then { s with pc := s.pc + 2 } else s
  else if op / 4096 % 16 = 0x6 then
    -- LD Vx, byte
    { s with V := s.V.set x kk }
  else if op / 4096 % 16 = 0x7 then
    -- ADD Vx, byte  (V[x] += kk; V[x] &= 0xFF)
    { s with V := s.V.set x ((s.V.getD x 0 + kk) % 256) }
  else if op / 4096 % 16 = 0x8 ∧ op % 16 = 0x0 then
    -- LD Vx, Vy
    { s with V := s.V.set x (s.V.getD y 0) }
  else if op / 4096 % 16 = 0x8 ∧ op % 16 = 0x1 then
    -- OR Vx, Vy
    { s with V := s.V.set x (Int.lor (s.V.getD x 0) (s.V.getD y 0)) }
  else if op / 4096 % 16 = 0x8 ∧ op % 16 = 0x2 then
    -- AND Vx, Vy
    { s with V := s.V.set x (Int.land (s.V.getD x 0) (s.V.getD y 0)) }
  else if op / 4096 % 16 = 0x8 ∧ op % 16 = 0x3 then
    -- XOR Vx, Vy
    { s with V := s.V.set x (Int.xor (s.V.getD x 0) (s.V.getD y 0)) }
  else if op / 4096 % 16 = 0x8 ∧ op % 16 = 0x4 then
    -- ADD Vx, Vy: store the raw sum, then the carry flag, then mask
    let V1 := s.V.set x (s.V.getD x 0 + s.V.getD y 0)
    let V2 := V1.set 0xF (if V1.getD x 0 > 0xFF then 1 else 0)
    let V3 := V2.set x (V2.getD x 0 % 256)
    { s with V := V3 }
  else if op / 4096 % 16 = 0x8 ∧ op % 16 = 0x5 then
    -- SUB Vx, Vy: flag first, then subtract, then mask
    let V1 := s.V.set 0xF (if s.V.getD x 0 > s.V.getD y 0 then 1 else 0)
    let V2 := V1.set x (V1.getD x 0 - V1.getD y 0)
    let V3 := V2.set x (V2.getD x 0 % 256)
    { s with V := V3 }
  else if op / 4096 % 16 = 0x8 ∧ op % 16 = 0x6 then
    -- SHR Vx: V[0xF] = V[x] & 0x1; V[x] >>= 1
    let V1 := s.V.set 0xF (s.V.getD x 0 % 2)
    let V2 := V1.set x ((V1.getD x 0).fdiv 2)
    { s with V := V2 }
  else if op / 4096 % 16 = 0x8 ∧ op % 16 = 0x7 then
    -- SUBN Vx, Vy: flag first, then V[x] = V[y] - V[x]  (no 8-bit mask in the source)
    let V1 := s.V.set 0xF (if s.V.getD y 0 > s.V.getD x 0 then 1 else 0)
    let V2 := V1.set x (V1.getD y 0 - V1.getD x 0)
    { s with V := V2 }
  else if op / 4096 % 16 = 0x8 ∧ op % 16 = 0xE then
    -- SHL Vx: V[0xF] = V[x] & 0x80; V[x] <<= 1  (no 8-bit mask in the source)
    let V1 := s.V.set 0xF ((s.V.getD x 0).fdiv 128 % 2 * 128)
    let V2 := V1.set x (V1.getD x 0 * 2)
    { s with V := V2 }
  else if op / 4096 % 16 = 0x9 then
    -- SNE Vx, Vy
    if s.V.getD x 0 ≠ s.V.getD y 0 then { s with pc := s.pc + 2 } else s
  else if op / 4096 % 16 = 0xA then
    -- LD I, addr
    { s with I := addr }
  else if op / 4096 % 16 = 0xB then
    -- JP V0, addr
    { s with pc := addr + s.V.getD 0 0 }
  else if op / 4096 % 16 = 0xC then
    -- RND Vx, byte: random.randint(0, 0xFF) & kk
    { s with V := s.V.set x ((Nat.land (rnd % 256) (op % 256) : ℕ) : ℤ) }
  else if op / 4096 % 16 = 0xD then
    -- DRW Vx, Vy, nibble: the collision flag returned by draw is discarded
    let n : ℕ := op % 16
    let sprite := (s.memory.drop s.I.toNat).take n
    { s with screen := (Display.draw s.screen (s.V.getD x 0) (s.V.getD y 0) sprite).1 }
  else if op / 4096 % 16 = 0xE ∧ op % 256 = 0x9E then
    -- SKP Vx: unimplemented in the source (pass)
    s
  else if op / 4096 % 16 = 0xE ∧ op % 256 = 0xA1 then
    -- SKNP Vx: unimplemented in the source (pass)
    s
  else if op / 4096 % 16 = 0xF ∧ op % 256 = 0x07 then
    -- LD Vx, DT
    { s with V := s.V.set x s.delay }
  else if op / 4096 % 16 = 0xF ∧ op % 256 = 0x0A then
    -- LD Vx, K: blocks on stdin until a digit <= 0xF arrives (modelled by key)
    { s with V := s.V.set x (key : ℤ) }
  else if op / 4096 % 16 = 0xF ∧ op % 256 = 0x15 then
    -- LD DT, Vx
    { s with delay := s.V.getD x 0 }
  else if op / 4096 % 16 = 0xF ∧ op % 256 = 0x18 then
    -- LD ST, Vx
    { s with sound := s.V.getD x 0 }
  else if op / 4096 % 16 = 0xF ∧ op % 256 = 0x1E then
    -- ADD I, Vx: I += V[x]; I &= 0xFFFF
    { s with I := (s.I + s.V.getD x 0) % 65536 }
  else if op / 4096 % 16 = 0xF ∧ op % 256 = 0x29 then
    -- LD F, Vx: I = hex_sprite_offset + 5 * V[x]  (offset 0)
    { s with I := 0 + 5 * s.V.getD x 0 }
  else if op / 4096 % 16 = 0xF ∧ op % 256 = 0x33 then
    -- LD B, Vx: BCD digits into memory[I], memory[I+1], memory[I+2]
    let m1 := s.memory.set s.I.toNat (((s.V.getD x 0) % 1000).fdiv 100)
    let m2 := m1.set (s.I.toNat + 1) (((s.V.getD x 0) % 100).fdiv 10)
    let m3 := m2.set (s.I.toNat + 2) ((s.V.getD x 0) % 10)
    { s with memory := m3 }
  else if op / 4096 % 16 = 0xF ∧ op % 256 = 0x55 then
    -- LD [I], Vx
    let m1 := (List.range (x + 1)).foldl
      (fun m off => m.set (s.I.toNat + off) (s.V.getD off 0)) s.memory
    { s with memory := m1 }
  else if op / 4096 % 16 = 0xF ∧ op % 256 = 0x65 then
    -- LD Vx, [I]
    let V1 := (List.range (x + 1)).foldl
      (fun v off => v.set off (s.memory.getD (s.I.toNat + off) 0)) s.V
    { s with V := V1 }
  else
    -- unknown opcode: halt the machine
    { s with halt := true }

/-- The fetch of `CPU.run`: `opcode = (memory[pc] << 8) + memory[pc+1]`. -/
def fetchOp (s : CPU) : ℕ :=
  (s.memory.getD s.pc.toNat 0 * 256 + s.memory.getD (s.pc.toNat + 1) 0).toNat

/-- `CPU._clock_tick`: advance the tick counter and, on every
`60 * clock_speed`-th tick, decrement the `delay` and `sound` timers,
each floored at 0.  The wall-clock resynchronisation and `time.sleep`
of the source touch no machine-visible register and are omitted. -/
def clock_tick (s : CPU) : CPU :=
  let s1 := { s with tick := s.tick + 1 }
  if s1.tick % (60 * s1.clock_speed) = 0 then
    let s2 := if s1.delay > 0 then { s1 with delay := s1.delay - 1 } else s1
    if s2.sound > 0 then { s2 with sound := s2.sound - 1 } else s2
  else s1

/-- One iteration of the `while not self.halt` loop of `CPU.run`:
fetch, advance pc by 2, execute, then the pacing tick. -/
def cycle (rnd key : ℕ) (s : CPU) : CPU :=
  let op := fetchOp s
  let s1 := { s with pc := s.pc + 2 }
  clock_tick (execute rnd key op s1)

/-- `CPU.run` with an explicit fuel bound on the number of loop
iterations: the loop re-tests `halt` before every cycle. -/
def run_fuel (rnd key : ℕ) : ℕ → CPU → CPU
  | 0, s => s
  | n + 1, s => if s.halt then s else run_fuel rnd key n (cycle rnd key s)

/-- Iterated `CPU._clock_tick` (the timing controller running on its own). -/
def clock_ticks : ℕ → CPU → CPU
  | 0, s => s
  | n + 1, s => clock_ticks n (clock_tick s)

/-! ### Lemmas about list and screen access -/

theorem getD_set_self {α : Type _} (l : List α) (i : ℕ) (a d : α) (h : i < l.length) :
    (l.set i a).getD i d = a := by
  rw [List.getD_eq_getElem?_getD, List.getElem?_set_self h]
  rfl

theorem getD_set_ne {α : Type _} (l : List α) (i j : ℕ) (a d : α) (h : i ≠ j) :
    (l.set i a).getD j d = l.getD j d := by
  rw [List.getD_eq_getElem?_getD, List.getElem?_set_ne h, ← List.getD_eq_getElem?_getD]

theorem length_screenSet (scr : Screen) (py px : ℕ) (b : Bool) :
    (screenSet scr py px b).length = scr.length :=
  List.length_set scr py _

theorem rowlen_screenSet (scr : Screen) (py px i : ℕ) (b : Bool) :
    ((screenSet scr py px b).getD i []).length = (scr.getD i []).length := by
  unfold screenSet
  rcases eq_or_ne py i with rfl | h
  · rw [List.getD_eq_getElem?_getD, List.getElem?_set_self']
    cases hp : scr[py]? with
    | none => simp [List.getD_eq_getElem?_getD, hp]
    | some r => simp [List.getD_eq_getElem?_getD, hp]
  · rw [List.getD_eq_getElem?_getD, List.getElem?_set_ne h, ← List.getD_eq_getElem?_getD]

/-- Well-formed screen: the 32 by 64 geometry every screen reachable from
`Display.__init__` has. -/
def wfScreen (scr : Screen) : Prop :=
  scr.length = 32 ∧ ∀ i, i < 32 → (scr.getD i []).length = 64

instance (scr : Screen) : Decidable (wfScreen scr) := by
  unfold wfScreen
  infer_instance

theorem wfScreen_screenSet {scr : Screen} (h : wfScreen scr) (py px : ℕ) (b : Bool) :
    wfScreen (screenSet scr py px b) :=
  ⟨(length_screenSet scr py px b).trans h.1,
   fun i hi => (rowlen_screenSet scr py px i b).trans (h.2 i hi)⟩

theorem screenGet_screenSet_self {scr : Screen} (hw : wfScreen scr) {py px : ℕ}
    (hy : py < 32) (hx : px < 64) (b : Bool) :
    screenGet (screenSet scr py px b) py px = b := by
  unfold screenGet screenSet
  rw [getD_set_self _ _ _ _ (hw.1 ▸ hy)]
  exact getD_set_self _ _ _ _ (by rw [hw.2 py hy]; exact hx)

theorem screenGet_screenSet_ne (scr : Screen) {py px qy qx : ℕ} (b : Bool)
    (h : py ≠ qy ∨ px ≠ qx) :
    screenGet (screenSet scr py px b) qy qx = screenGet scr qy qx := by
  unfold screenGet screenSet
  rcases eq_or_ne py qy with rfl | hne
  · have hx : px ≠ qx := h.resolve_left (fun hc => hc rfl)
    by_cases hl : py < scr.length
    · rw [getD_set_self _ _ _ _ hl, getD_set_ne _ _ _ _ _ hx]
    · rw [List.set_eq_of_length_le (Nat.le_of_not_lt hl)]
  · rw [getD_set_ne _ _ _ _ _ hne]

/-! ### Characterisation of one sprite row of `Display.draw` -/

/-- The screen row targeted by a sprite row drawn with vertical offset `sy`. -/
def rowPy (sy : ℤ) : ℕ := (sy % 32).toNat

/-- The screen column targeted by bit `c` of a sprite row at horizontal
offset `sx`. -/
def colPx (sx : ℤ) (c : ℕ) : ℕ := ((sx + c) % 64).toNat

theorem rowPy_lt (sy : ℤ) : rowPy sy < 32 := by unfold rowPy; omega

theorem colPx_lt (sx : ℤ) (c : ℕ) : colPx sx c < 64 := by unfold colPx; omega

theorem colPx_inj (sx : ℤ) {c c' : ℕ} (h : c < 64) (h' : c' < 64)
    (he : colPx sx c = colPx sx c') : c = c' := by
  unfold colPx at he; omega

theorem drawRowStep_eq (sx sy b : ℤ) (acc : Screen × Bool) (c : ℕ) :
    drawRowStep sx sy b acc c =
      if spriteBit b c then
        (screenSet acc.1 (rowPy sy) (colPx sx c) (!(screenGet acc.1 (rowPy sy) (colPx sx c))),
         acc.2 || screenGet acc.1 (rowPy sy) (colPx sx c))
      else acc := rfl

/-- The first `n` iterations of the inner loop of `Display.draw`. -/
def drawRowN (sx sy b : ℤ) (scr : Screen) (f : Bool) (n : ℕ) : Screen × Bool :=
  (List.range n).foldl (drawRowStep sx sy b) (scr, f)

theorem drawRow_eq_drawRowN (scr : Screen) (f : Bool) (sx sy b : ℤ) :
    drawRow scr f sx sy b = drawRowN sx sy b scr f 8 := rfl

theorem drawRowN_succ (sx sy b : ℤ) (scr : Screen) (f : Bool) (n : ℕ) :
    drawRowN sx sy b scr f (n + 1) =
      drawRowStep sx sy b (drawRowN sx sy b scr f n) n := by
  unfold drawRowN
  rw [List.range_succ, List.foldl_append, List.foldl_cons, List.foldl_nil]

theorem drawRowN_shape (sx sy b : ℤ) (scr : Screen) (f : Bool) (n : ℕ) :
    (drawRowN sx sy b scr f n).1.length = scr.length ∧
      ∀ i, ((drawRowN sx sy b scr f n).1.getD i []).length = (scr.getD i []).length := by
  induction n with
  | zero => exact ⟨rfl, fun _ => rfl⟩
  | succ n ih =>
      rw [drawRowN_succ, drawRowStep_eq]
      split
      · exact ⟨(length_screenSet _ _ _ _).trans ih.1,
          fun i => (rowlen_screenSet _ _ _ _ _).trans (ih.2 i)⟩
      · exact ih

theorem wfScreen_drawRowN {scr : Screen} (hw : wfScreen scr) (sx sy b : ℤ) (f : Bool)
    (n : ℕ) : wfScreen (drawRowN sx sy b scr f n).1 :=
  ⟨(drawRowN_shape sx sy b scr f n).1.trans hw.1,
   fun i hi => ((drawRowN_shape sx sy b scr f n).2 i).trans (hw.2 i hi)⟩

theorem drawRowN_get (sx sy b : ℤ) (scr : Screen) (f : Bool) (n : ℕ) (hn : n ≤ 64)
    (hw : wfScreen scr) (py px : ℕ) :
    (py = rowPy sy ∧ (∃ c, c < n ∧ spriteBit b c = true ∧ px = colPx sx c) →
      screenGet (drawRowN sx sy b scr f n).1 py px = !(screenGet scr py px)) ∧
    (¬(py = rowPy sy ∧ ∃ c, c < n ∧ spriteBit b c = true ∧ px = colPx sx c) →
      screenGet (drawRowN sx sy b scr f n).1 py px = screenGet scr py px) := by
  induction n with
  | zero =>
      refine ⟨fun h => absurd h ?_, fun _ => rfl⟩
      rintro ⟨-, c, hc, -⟩
      omega
  | succ n ih =>
      have hn8 : n ≤ 64 := Nat.le_of_succ_le hn
      rw [drawRowN_succ, drawRowStep_eq]
      by_cases hb : spriteBit b n
      · rw [if_pos hb]
        have hwn := wfScreen_drawRowN hw sx sy b f n
        by_cases hp : py = rowPy sy ∧ px = colPx sx n
        · -- the pixel toggled at step n; it was untouched by steps below n
          obtain ⟨hpy, hpx⟩ := hp
          subst hpy hpx
          have hmiss : ¬(rowPy sy = rowPy sy ∧
              ∃ c, c < n ∧ spriteBit b c = true ∧ colPx sx n = colPx sx c) := by
            rintro ⟨-, c, hc, -, he⟩
            have := colPx_inj sx (by omega) (by omega) he
            omega
          have hbase := (ih hn8).2 hmiss
          rw [screenGet_screenSet_self hwn (rowPy_lt sy) (colPx_lt sx n), hbase]
          constructor
          · intro _; rfl
          · intro hcon
            exact absurd ⟨rfl, n, Nat.lt_succ_self n, hb, rfl⟩ hcon
        · -- a pixel different from the one toggled at step n
          have hne : rowPy sy ≠ py ∨ colPx sx n ≠ px := by
            rcases eq_or_ne py (rowPy sy) with rfl | h1
            · exact Or.inr fun he => hp ⟨rfl, he.symm⟩
            · exact Or.inl fun he => h1 he.symm
          rw [screenGet_screenSet_ne _ _ hne]
          constructor
          · rintro ⟨hpy, c, hc, hbc, hpx⟩
            have hcn : c ≠ n := by
              rintro rfl
              exact hp ⟨hpy, hpx⟩
            exact (ih hn8).1 ⟨hpy, c, by omega, hbc, hpx⟩
          · intro hcon
            refine (ih hn8).2 ?_
            rintro ⟨hpy, c, hc, hbc, hpx⟩
            exact hcon ⟨hpy, c, by omega, hbc, hpx⟩
      · rw [if_neg hb]
        constructor
        · rintro ⟨hpy, c, hc, hbc, hpx⟩
          have hcn : c ≠ n := by
            rintro rfl
            exact hb hbc
          exact (ih hn8).1 ⟨hpy, c, by omega, hbc, hpx⟩
        · intro hcon
          refine (ih hn8).2 ?_
          rintro ⟨hpy, c, hc, hbc, hpx⟩
          exact hcon ⟨hpy, c, by omega, hbc, hpx⟩

theorem drawRowN_flag (sx sy b : ℤ) (scr : Screen) (f : Bool) (n : ℕ) (hn : n ≤ 64)
    (hw : wfScreen scr) :
    ((drawRowN sx sy b scr f n).2 = true ↔ f = true ∨
      ∃ c, c < n ∧ spriteBit b c = true ∧
        screenGet scr (rowPy sy) (colPx sx c) = true) := by
  induction n with
  | zero =>
      simp only [drawRowN, List.range_zero, List.foldl_nil]
      constructor
      · exact fun h => Or.inl h
      · rintro (h | ⟨c, hc, -⟩)
        · exact h
        · omega
  | succ n ih =>
      have hn8 : n ≤ 64 := Nat.le_of_succ_le hn
      rw [drawRowN_succ, drawRowStep_eq]
      by_cases hb : spriteBit b n
      · rw [if_pos hb]
        have hmiss : ¬(rowPy sy = rowPy sy ∧
            ∃ c, c < n ∧ spriteBit b c = true ∧ colPx sx n = colPx sx c) := by
          rintro ⟨-, c, hc, -, he⟩
          have := colPx_inj sx (by omega) (by omega) he
          omega
        have hbase := (drawRowN_get sx sy b scr f n hn8 hw (rowPy sy) (colPx sx n)).2 hmiss
        simp only [Bool.or_eq_true, hbase, ih hn8]
        constructor
        · rintro ((h | ⟨c, hc, hbc, hr⟩) | hr)
          · exact Or.inl h
          · exact Or.inr ⟨c, by omega, hbc, hr⟩
          · exact Or.inr ⟨n, Nat.lt_succ_self n, hb, hr⟩
        · rintro (h | ⟨c, hc, hbc, hr⟩)
          · exact Or.inl (Or.inl h)
          · rcases eq_or_ne c n with rfl | hcn
            · exact Or.inr hr
            · exact Or.inl (Or.inr ⟨c, by omega, hbc, hr⟩)
      · rw [if_neg hb, ih hn8]
        constructor
        · rintro (h | ⟨c, hc, hbc, hr⟩)
          · exact Or.inl h
          · exact Or.inr ⟨c, by omega, hbc, hr⟩
        · rintro (h | ⟨c, hc, hbc, hr⟩)
          · exact Or.inl h
          · rcases eq_or_ne c n with rfl | hcn
            · exact absurd hbc hb
            · exact Or.inr ⟨c, by omega, hbc, hr⟩

/-! ### Characterisation of a whole `Display.draw` call -/

/-- Position `(py, px)` of the screen is targeted by a set sprite bit:
there are a row `r` and a bit `c` with bit `c` of `sprite[r]` set,
`py = (sy + r) mod 32` and `px = (sx + c) mod 64`. -/
def hits (sx sy : ℤ) (sprite : List ℤ) (py px : ℕ) : Prop :=
  ∃ r, r < sprite.length ∧ py = ((sy + r) % 32).toNat ∧
    ∃ c, c < 8 ∧ spriteBit (sprite.getD r 0) c = true ∧ px = ((sx + c) % 64).toNat

instance (sx sy : ℤ) (sprite : List ℤ) (py px : ℕ) :
    Decidable (hits sx sy sprite py px) := by
  unfold hits
  infer_instance

theorem drawAux_cons (scr : Screen) (f : Bool) (sx sy b : ℤ) (rest : List ℤ) :
    drawAux scr f sx sy (b :: rest) =
      drawAux (drawRow scr f sx sy b).1 (drawRow scr f sx sy b).2 sx (sy + 1) rest := rfl

theorem hits_cons (sx sy b : ℤ) (rest : List ℤ) (py px : ℕ) :
    hits sx sy (b :: rest) py px ↔
      (py = rowPy sy ∧ ∃ c, c < 8 ∧ spriteBit b c = true ∧ px = colPx sx c) ∨
        hits sx (sy + 1) rest py px := by
  unfold hits rowPy colPx
  constructor
  · rintro ⟨r, hr, hpy, c, hc, hbc, hpx⟩
    cases r with
    | zero =>
        refine Or.inl ⟨?_, c, hc, hbc, hpx⟩
        rw [hpy]; omega
    | succ r =>
        refine Or.inr ⟨r, by simp at hr ⊢; omega, ?_, c, hc, hbc, hpx⟩
        rw [hpy]; omega
  · rintro (⟨hpy, c, hc, hbc, hpx⟩ | ⟨r, hr, hpy, c, hc, hbc, hpx⟩)
    · refine ⟨0, by simp, ?_, c, hc, hbc, hpx⟩
      rw [hpy]; omega
    · refine ⟨r + 1, by simp; omega, ?_, c, hc, hbc, hpx⟩
      rw [hpy]; omega

theorem drawAux_shape (sprite : List ℤ) :
    ∀ (scr : Screen) (f : Bool) (sx sy : ℤ),
      (drawAux scr f sx sy sprite).1.length = scr.length ∧
      ∀ i, ((drawAux scr f sx sy sprite).1.getD i []).length = (scr.getD i []).length := by
  induction sprite with
  | nil => exact fun scr f sx sy => ⟨rfl, fun _ => rfl⟩
  | cons b rest ih =>
      intro scr f sx sy
      rw [drawAux_cons]
      obtain ⟨h1, h2⟩ := ih (drawRow scr f sx sy b).1 (drawRow scr f sx sy b).2 sx (sy + 1)
      rw [drawRow_eq_drawRowN] at h1 h2
      exact ⟨h1.trans (drawRowN_shape sx sy b scr f 8).1,
        fun i => (h2 i).trans ((drawRowN_shape sx sy b scr f 8).2 i)⟩

theorem wfScreen_drawAux {scr : Screen} (hw : wfScreen scr) (f : Bool) (sx sy : ℤ)
    (sprite : List ℤ) : wfScreen (drawAux scr f sx sy sprite).1 :=
  ⟨(drawAux_shape sprite scr f sx sy).1.trans hw.1,
   fun i hi => ((drawAux_shape sprite scr f sx sy).2 i).trans (hw.2 i hi)⟩

theorem drawAux_get (sprite : List ℤ) :
    ∀ (scr : Screen) (f : Bool) (sx sy : ℤ), wfScreen scr → sprite.length ≤ 32 →
      ∀ py px,
      (hits sx sy sprite py px →
        screenGet (drawAux scr f sx sy sprite).1 py px = !(screenGet scr py px)) ∧
      (¬hits sx sy sprite py px →
        screenGet (drawAux scr f sx sy sprite).1 py px = screenGet scr py px) := by
  induction sprite with
  | nil =>
      intro scr f sx sy hw hlen py px
      refine ⟨fun h => ?_, fun _ => rfl⟩
      obtain ⟨r, hr, -⟩ := h
      simp at hr
  | cons b rest ih =>
      intro scr f sx sy hw hlen py px
      rw [drawAux_cons, drawRow_eq_drawRowN]
      have hwS1 : wfScreen (drawRowN sx sy b scr f 8).1 := wfScreen_drawRowN hw sx sy b f 8
      have hrest : rest.length ≤ 31 := by simp at hlen; omega
      have hrow := drawRowN_get sx sy b scr f 8 (by omega) hw py px
      have hIH := ih (drawRowN sx sy b scr f 8).1 (drawRowN sx sy b scr f 8).2 sx (sy + 1)
        hwS1 (by omega) py px
      -- a pixel hit by one of the remaining rows lies outside the head row
      have hdisj : hits sx (sy + 1) rest py px → py ≠ rowPy sy := by
        rintro ⟨r, hr, hpy, -⟩
        unfold rowPy
        have : r < 31 := by omega
        omega
      constructor
      · intro hh
        rcases (hits_cons sx sy b rest py px).1 hh with ⟨hpy, c, hc, hbc, hpx⟩ | hrh
        · have hnr : ¬ hits sx (sy + 1) rest py px := fun hc2 => (hdisj hc2) hpy
          rw [hIH.2 hnr]
          exact hrow.1 ⟨hpy, c, hc, hbc, hpx⟩
        · have hpy : py ≠ rowPy sy := hdisj hrh
          rw [hIH.1 hrh, hrow.2 (fun hc2 => hpy hc2.1)]
      · intro hh
        rw [hits_cons sx sy b rest py px] at hh
        push_neg at hh
        have hnr : ¬ hits sx (sy + 1) rest py px := fun hc2 => hh.2 hc2
        rw [hIH.2 hnr]
        refine hrow.2 ?_
        rintro ⟨hpy, c, hc, hbc, hpx⟩
        exact hh.1 hpy c hc hbc hpx

theorem drawAux_flag (sprite : List ℤ) :
    ∀ (scr : Screen) (f : Bool) (sx sy : ℤ), wfScreen scr → sprite.length ≤ 32 →
      ((drawAux scr f sx sy sprite).2 = true ↔ f = true ∨
        ∃ r, r < sprite.length ∧ ∃ c, c < 8 ∧ spriteBit (sprite.getD r 0) c = true ∧
          screenGet scr ((sy + r) % 32).toNat ((sx + c) % 64).toNat = true) := by
  induction sprite with
  | nil =>
      intro scr f sx sy hw hlen
      constructor
      · exact fun h => Or.inl h
      · rintro (h | ⟨r, hr, -⟩)
        · exact h
        · simp at hr
  | cons b rest ih =>
      intro scr f sx sy hw hlen
      rw [drawAux_cons, drawRow_eq_drawRowN]
      have hwS1 : wfScreen (drawRowN sx sy b scr f 8).1 := wfScreen_drawRowN hw sx sy b f 8
      have hrest : rest.length ≤ 31 := by simp at hlen; omega
      have hrow := drawRowN_get sx sy b scr f 8 (by omega) hw
      rw [ih (drawRowN sx sy b scr f 8).1 (drawRowN sx sy b scr f 8).2 sx (sy + 1)
        hwS1 (by omega),
        drawRowN_flag sx sy b scr f 8 (by omega) hw]
      constructor
      · rintro ((hf | ⟨c, hc, hbc, hr⟩) | ⟨r, hr, c, hc, hbc, hread⟩)
        · exact Or.inl hf
        · refine Or.inr ⟨0, by simp, c, hc, hbc, ?_⟩
          have e1 : ((sy + (0 : ℕ)) % 32).toNat = rowPy sy := by unfold rowPy; omega
          rw [e1]
          exact hr
        · -- a read performed by the remaining rows sees the original screen
          have e1 : (((sy + 1) + (r : ℤ)) % 32).toNat = ((sy + ((r + 1 : ℕ) : ℤ)) % 32).toNat := by
            omega
          have hside : ((sy + 1 + (r : ℤ)) % 32).toNat ≠ rowPy sy := by
            unfold rowPy
            have : r < 31 := by omega
            omega
          have := (hrow (((sy + 1) + (r : ℤ)) % 32).toNat ((sx + (c : ℤ)) % 64).toNat).2
            (fun hc2 => hside hc2.1)
          rw [this] at hread
          refine Or.inr ⟨r + 1, by simp; omega, c, hc, ?_, ?_⟩
          · rw [List.getD_cons_succ]
            exact hbc
          · rw [← e1]
            exact hread
      · rintro (hf | ⟨r, hr, c, hc, hbc, hread⟩)
        · exact Or.inl (Or.inl hf)
        · cases r with
          | zero =>
              refine Or.inl (Or.inr ⟨c, hc, hbc, ?_⟩)
              have e1 : ((sy + (0 : ℕ)) % 32).toNat = rowPy sy := by unfold rowPy; omega
              rw [e1] at hread
              exact hread
          | succ r =>
              have hside : ((sy + 1 + (r : ℤ)) % 32).toNat ≠ rowPy sy := by
                unfold rowPy
                have : r < 31 := by simp at hr; omega
                omega
              have e1 : ((sy + ((r + 1 : ℕ) : ℤ)) % 32).toNat = (((sy + 1) + (r : ℤ)) % 32).toNat := by
                omega
              refine Or.inr ⟨r, by simp at hr ⊢; omega, c, hc, ?_, ?_⟩
              · rw [List.getD_cons_succ] at hbc
                exact hbc
              · rw [e1] at hread
                rw [(hrow (((sy + 1) + (r : ℤ)) % 32).toNat ((sx + (c : ℤ)) % 64).toNat).2
                  (fun hc2 => hside hc2.1)]
                exact hread

/-! ### Frame property of `Display.draw` (no well-formedness needed) -/

theorem drawRowN_frame (sx sy b : ℤ) (scr : Screen) (f : Bool) (n : ℕ) (py px : ℕ)
    (h : ¬(py = rowPy sy ∧ ∃ c, c < n ∧ spriteBit b c = true ∧ px = colPx sx c)) :
    screenGet (drawRowN sx sy b scr f n).1 py px = screenGet scr py px := by
  induction n with
  | zero => rfl
  | succ n ih =>
      rw [drawRowN_succ, drawRowStep_eq]
      by_cases hb : spriteBit b n
      · rw [if_pos hb]
        have hne : rowPy sy ≠ py ∨ colPx sx n ≠ px := by
          by_contra hc
          push_neg at hc
          exact h ⟨hc.1.symm, n, Nat.lt_succ_self n, hb, hc.2.symm⟩
        rw [screenGet_screenSet_ne _ _ hne]
        refine ih ?_
        rintro ⟨hpy, c, hc, hbc, hpx⟩
        exact h ⟨hpy, c, by omega, hbc, hpx⟩
      · rw [if_neg hb]
        refine ih ?_
        rintro ⟨hpy, c, hc, hbc, hpx⟩
        exact h ⟨hpy, c, by omega, hbc, hpx⟩

theorem drawAux_frame (sprite : List ℤ) :
    ∀ (scr : Screen) (f : Bool) (sx sy : ℤ) (py px : ℕ), ¬ hits sx sy sprite py px →
      screenGet (drawAux scr f sx sy sprite).1 py px = screenGet scr py px := by
  induction sprite with
  | nil =>
      intro scr f sx sy py px _
      rfl
  | cons b rest ih =>
      intro scr f sx sy py px h
      rw [hits_cons] at h
      push_neg at h
      rw [drawAux_cons, ih _ _ _ _ _ _ h.2, drawRow_eq_drawRowN]
      refine drawRowN_frame sx sy b scr f 8 py px ?_
      rintro ⟨hpy, c, hc, hbc, hpx⟩
      exact h.1 hpy c hc hbc hpx

/-! ### Screen extensionality -/

theorem screen_ext {s1 s2 : Screen} (hlen : s1.length = s2.length)
    (hrow : ∀ i, (s1.getD i []).length = (s2.getD i []).length)
    (hpix : ∀ py px, screenGet s1 py px = screenGet s2 py px) : s1 = s2 := by
  refine List.ext_getElem hlen ?_
  intro i hi1 hi2
  refine List.ext_getElem ?_ ?_
  · have := hrow i
    rwa [List.getD_eq_getElem _ _ hi1, List.getD_eq_getElem _ _ hi2] at this
  · intro px hp1 hp2
    have := hpix i px
    unfold screenGet at this
    rwa [List.getD_eq_getElem _ _ hi1, List.getD_eq_getElem _ _ hi2,
      List.getD_eq_getElem _ _ hp1, List.getD_eq_getElem _ _ hp2] at this

/-! ### Claim C9: draw/XOR idempotence -/

/-- C9: for every 64x32 screen state, every coordinate pair and every
sprite of 1 to 15 rows, calling `Display.draw` twice with the same
arguments restores the screen exactly, and the second call's collision
flag is true iff the first call turned some pixel from off to on. -/
theorem C9_draw_twice (scr : Screen) (sx sy : ℤ) (sprite : List ℤ)
    (hw : wfScreen scr) (hlen1 : 1 ≤ sprite.length) (hlen15 : sprite.length ≤ 15) :
    (Display.draw (Display.draw scr sx sy sprite).1 sx sy sprite).1 = scr ∧
    ((Display.draw (Display.draw scr sx sy sprite).1 sx sy sprite).2 = true ↔
      ∃ py px, screenGet scr py px = false ∧
        screenGet (Display.draw scr sx sy sprite).1 py px = true) := by
  have hlen : sprite.length ≤ 32 := by omega
  unfold Display.draw
  have hwS1 : wfScreen (drawAux scr false sx sy sprite).1 := wfScreen_drawAux hw false sx sy sprite
  have hget1 := drawAux_get sprite scr false sx sy hw hlen
  have hget2 := drawAux_get sprite (drawAux scr false sx sy sprite).1 false sx sy hwS1 hlen
  constructor
  · refine screen_ext ?_ ?_ ?_
    · exact ((drawAux_shape sprite _ false sx sy).1).trans (drawAux_shape sprite scr false sx sy).1
    · exact fun i => ((drawAux_shape sprite _ false sx sy).2 i).trans
        ((drawAux_shape sprite scr false sx sy).2 i)
    · intro py px
      by_cases hh : hits sx sy sprite py px
      · rw [(hget2 py px).1 hh, (hget1 py px).1 hh, Bool.not_not]
      · rw [(hget2 py px).2 hh, (hget1 py px).2 hh]
  · rw [drawAux_flag sprite (drawAux scr false sx sy sprite).1 false sx sy hwS1 hlen]
    constructor
    · rintro (hf | ⟨r, hr, c, hc, hbc, hread⟩)
      · exact absurd hf (by simp)
      · have hh : hits sx sy sprite ((sy + (r : ℤ)) % 32).toNat ((sx + (c : ℤ)) % 64).toNat :=
          ⟨r, hr, rfl, c, hc, hbc, rfl⟩
        have h1 := (hget1 ((sy + (r : ℤ)) % 32).toNat ((sx + (c : ℤ)) % 64).toNat).1 hh
        refine ⟨((sy + (r : ℤ)) % 32).toNat, ((sx + (c : ℤ)) % 64).toNat, ?_, hread⟩
        rw [h1] at hread
        cases hv : screenGet scr ((sy + (r : ℤ)) % 32).toNat ((sx + (c : ℤ)) % 64).toNat
        · rfl
        · rw [hv] at hread
          exact absurd hread (by simp)
    · rintro ⟨py, px, hoff, hon⟩
      have hh : hits sx sy sprite py px := by
        by_contra hnh
        rw [(hget1 py px).2 hnh, hoff] at hon
        exact absurd hon (by simp)
      obtain ⟨r, hr, hpy, c, hc, hbc, hpx⟩ := hh
      refine Or.inr ⟨r, hr, c, hc, hbc, ?_⟩
      rw [← hpy, ← hpx]
      exact hon

/-- C9 witness: a concrete instance discharging the hypotheses of
`C9_draw_twice` (all-off screen, one-byte sprite 0x80 at (3, 5)). -/
theorem C9_draw_twice_witness :
    wfScreen clearScreen ∧ 1 ≤ ([128] : List ℤ).length ∧ ([128] : List ℤ).length ≤ 15 ∧
      (Display.draw (Display.draw clearScreen 3 5 [128]).1 3 5 [128]).1 = clearScreen :=
  ⟨by decide, by decide, by decide,
   (C9_draw_twice clearScreen 3 5 [128] (by decide) (by decide) (by decide)).1⟩

/-! ### Claim C10: draw only touches pixels under set sprite bits -/

/-- C10: a pixel of the screen changes during `Display.draw` only at a
position `((start_y + r) mod 32, (start_x + c) mod 64)` for some sprite row
`r` and set bit `c` of `sprite[r]`; every pixel outside `hits` (in
particular, every position of a clear sprite bit) retains its prior value. -/
theorem C10_draw_frame (scr : Screen) (sx sy : ℤ) (sprite : List ℤ) (py px : ℕ)
    (h : ¬ hits sx sy sprite py px) :
    screenGet (Display.draw scr sx sy sprite).1 py px = screenGet scr py px :=
  drawAux_frame sprite scr false sx sy py px h

/-- C10 witness: pixel (5, 5) is not hit by sprite `[0x80]` drawn at
(0, 0) and indeed keeps its value. -/
theorem C10_draw_frame_witness :
    ¬ hits 0 0 [128] 5 5 ∧
      screenGet (Display.draw clearScreen 0 0 [128]).1 5 5 = screenGet clearScreen 5 5 :=
  ⟨by decide, C10_draw_frame clearScreen 0 0 [128] 5 5 (by decide)⟩

/-! ### The timing controller -/

theorem clock_tick_fields (s : CPU) :
    (clock_tick s).tick = s.tick + 1 ∧
    (clock_tick s).clock_speed = s.clock_speed ∧
    (clock_tick s).delay =
      (if (s.tick + 1) % (60 * s.clock_speed) = 0 ∧ 0 < s.delay
       then s.delay - 1 else s.delay) ∧
    (clock_tick s).sound =
      (if (s.tick + 1) % (60 * s.clock_speed) = 0 ∧ 0 < s.sound
       then s.sound - 1 else s.sound) ∧
    (clock_tick s).halt = s.halt ∧ (clock_tick s).pc = s.pc ∧
    (clock_tick s).memory = s.memory ∧ (clock_tick s).V = s.V ∧
    (clock_tick s).I = s.I ∧ (clock_tick s).stack = s.stack ∧
    (clock_tick s).sp = s.sp ∧ (clock_tick s).screen = s.screen := by
  unfold clock_tick
  by_cases h1 : (s.tick + 1) % (60 * s.clock_speed) = 0 <;>
    by_cases h2 : 0 < s.delay <;>
      by_cases h3 : 0 < s.sound <;>
        simp [h1, h2, h3]

/-- Evolution of the delay timer alone under `_clock_tick`, at the reset
default `clock_speed = 10` (so a decrement attempt every 600th tick). -/
def delayIter : ℕ → ℕ → ℤ → ℤ
  | 0, _, d => d
  | n + 1, t, d =>
      delayIter n (t + 1) (if (t + 1) % 600 = 0 ∧ 0 < d then d - 1 else d)

theorem clock_ticks_clock_speed (n : ℕ) :
    ∀ s : CPU, (clock_ticks n s).clock_speed = s.clock_speed := by
  induction n with
  | zero => exact fun s => rfl
  | succ n ih =>
      intro s
      show (clock_ticks n (clock_tick s)).clock_speed = _
      rw [ih, (clock_tick_fields s).2.1]

theorem clock_ticks_delay (n : ℕ) :
    ∀ s : CPU, s.clock_speed = 10 →
      (clock_ticks n s).delay = delayIter n s.tick s.delay := by
  induction n with
  | zero => exact fun s _ => rfl
  | succ n ih =>
      intro s hcs
      show (clock_ticks n (clock_tick s)).delay = _
      rw [ih (clock_tick s) (((clock_tick_fields s).2.1).trans hcs),
        (clock_tick_fields s).2.2.1, (clock_tick_fields s).1, hcs]
      norm_num [delayIter]

theorem delayIter_nonneg (n : ℕ) : ∀ (t : ℕ) (d : ℤ), 0 ≤ d → 0 ≤ delayIter n t d := by
  induction n with
  | zero => exact fun _ _ h => h
  | succ n ih =>
      intro t d hd
      refine ih (t + 1) _ ?_
      split_ifs <;> omega

/-! ### Claim C8: timer decay -/

set_option maxRecDepth 8000 in
/-- C8: starting from delay = 10 at the default granularity
(`clock_speed = 10`, fresh tick counter), the 600 controller ticks that
span exactly one simulated second leave delay = 9 (a single decrement),
and the delay register never goes below 0 however many further ticks run. -/
theorem C8_timer_decay (s : CPU) (hd : s.delay = 10) (hcs : s.clock_speed = 10)
    (ht : s.tick = 0) :
    (clock_ticks 600 s).delay = 9 ∧
      ∀ n, 0 ≤ (clock_ticks n (clock_ticks 600 s)).delay := by
  have h1 : (clock_ticks 600 s).delay = 9 := by
    rw [clock_ticks_delay 600 s hcs, hd, ht]
    decide
  refine ⟨h1, fun n => ?_⟩
  rw [clock_ticks_delay n (clock_ticks 600 s) ((clock_ticks_clock_speed 600 s).trans hcs), h1]
  exact delayIter_nonneg n _ 9 (by omega)

/-- The state used to witness C8: delay = 10, default clock speed,
fresh tick counter. -/
def c8state : CPU where
  halt := false
  pc := 0
  memory := []
  V := []
  I := 0
  delay := 10
  sound := 0
  stack := []
  sp := 0
  screen := []
  clock_speed := 10
  tick := 0

/-- C8 witness: the hypotheses of `C8_timer_decay` hold for `c8state`
and one simulated second of ticks leaves delay = 9. -/
theorem C8_timer_decay_witness :
    c8state.delay = 10 ∧ c8state.clock_speed = 10 ∧ c8state.tick = 0 ∧
      (clock_ticks 600 c8state).delay = 9 :=
  ⟨rfl, rfl, rfl, (C8_timer_decay c8state rfl rfl rfl).1⟩

/-! ### Dispatch lemmas for `CPU._execute` -/

/-- The decode patterns recognised by the elif chain of `CPU._execute`,
in source order; an opcode matching none of them reaches the final
`else` branch and halts the machine. -/
def recognized (op : ℕ) : Prop :=
  op = 0x00E0 ∨ op = 0x00EE ∨
  op / 4096 % 16 = 0x1 ∨ op / 4096 % 16 = 0x2 ∨ op / 4096 % 16 = 0x3 ∨
  op / 4096 % 16 = 0x4 ∨ op / 4096 % 16 = 0x5 ∨ op / 4096 % 16 = 0x6 ∨
  op / 4096 % 16 = 0x7 ∨
  (op / 4096 % 16 = 0x8 ∧ op % 16 = 0x0) ∨ (op / 4096 % 16 = 0x8 ∧ op % 16 = 0x1) ∨
  (op / 4096 % 16 = 0x8 ∧ op % 16 = 0x2) ∨ (op / 4096 % 16 = 0x8 ∧ op % 16 = 0x3) ∨
  (op / 4096 % 16 = 0x8 ∧ op % 16 = 0x4) ∨ (op / 4096 % 16 = 0x8 ∧ op % 16 = 0x5) ∨
  (op / 4096 % 16 = 0x8 ∧ op % 16 = 0x6) ∨ (op / 4096 % 16 = 0x8 ∧ op % 16 = 0x7) ∨
  (op / 4096 % 16 = 0x8 ∧ op % 16 = 0xE) ∨
  op / 4096 % 16 = 0x9 ∨ op / 4096 % 16 = 0xA ∨ op / 4096 % 16 = 0xB ∨
  op / 4096 % 16 = 0xC ∨ op / 4096 % 16 = 0xD ∨
  (op / 4096 % 16 = 0xE ∧ op % 256 = 0x9E) ∨ (op / 4096 % 16 = 0xE ∧ op % 256 = 0xA1) ∨
  (op / 4096 % 16 = 0xF ∧ op % 256 = 0x07) ∨ (op / 4096 % 16 = 0xF ∧ op % 256 = 0x0A) ∨
  (op / 4096 % 16 = 0xF ∧ op % 256 = 0x15) ∨ (op / 4096 % 16 = 0xF ∧ op % 256 = 0x18) ∨
  (op / 4096 % 16 = 0xF ∧ op % 256 = 0x1E) ∨ (op / 4096 % 16 = 0xF ∧ op % 256 = 0x29) ∨
  (op / 4096 % 16 = 0xF ∧ op % 256 = 0x33) ∨ (op / 4096 % 16 = 0xF ∧ op % 256 = 0x55) ∨
  (op / 4096 % 16 = 0xF ∧ op % 256 = 0x65)

instance (op : ℕ) : Decidable (recognized op) := by
  unfold recognized
  infer_instance

/-- The two keyboard-test opcodes `0xEx9E` and `0xExA1` reach `pass`
branches: the state is returned unchanged. -/
theorem execute_pass_E (rnd key op : ℕ) (s : CPU)
    (h1 : op / 4096 % 16 = 0xE) (h2 : op % 256 = 0x9E ∨ op % 256 = 0xA1) :
    execute rnd key op s = s := by
  unfold execute
  rw [if_neg (by omega : ¬ op = 0x00E0), if_neg (by omega : ¬ op = 0x00EE),
    if_neg (by omega : ¬ op / 4096 % 16 = 0x1), if_neg (by omega : ¬ op / 4096 % 16 = 0x2),
    if_neg (by omega : ¬ op / 4096 % 16 = 0x3), if_neg (by omega : ¬ op / 4096 % 16 = 0x4),
    if_neg (by omega : ¬ op / 4096 % 16 = 0x5), if_neg (by omega : ¬ op / 4096 % 16 = 0x6),
    if_neg (by omega : ¬ op / 4096 % 16 = 0x7),
    if_neg (by omega : ¬ (op / 4096 % 16 = 0x8 ∧ op % 16 = 0x0)),
    if_neg (by omega : ¬ (op / 4096 % 16 = 0x8 ∧ op % 16 = 0x1)),
    if_neg (by omega : ¬ (op / 4096 % 16 = 0x8 ∧ op % 16 = 0x2)),
    if_neg (by omega : ¬ (op / 4096 % 16 = 0x8 ∧ op % 16 = 0x3)),
    if_neg (by omega : ¬ (op / 4096 % 16 = 0x8 ∧ op % 16 = 0x4)),
    if_neg (by omega : ¬ (op / 4096 % 16 = 0x8 ∧ op % 16 = 0x5)),
    if_neg (by omega : ¬ (op / 4096 % 16 = 0x8 ∧ op % 16 = 0x6)),
    if_neg (by omega : ¬ (op / 4096 % 16 = 0x8 ∧ op % 16 = 0x7)),
    if_neg (by omega : ¬ (op / 4096 % 16 = 0x8 ∧ op % 16 = 0xE)),
    if_neg (by omega : ¬ op / 4096 % 16 = 0x9), if_neg (by omega : ¬ op / 4096 % 16 = 0xA),
    if_neg (by omega : ¬ op / 4096 % 16 = 0xB), if_neg (by omega : ¬ op / 4096 % 16 = 0xC),
    if_neg (by omega : ¬ op / 4096 % 16 = 0xD)]
  rcases h2 with h2 | h2
  · rw [if_pos ⟨h1, h2⟩]
  · rw [if_neg (by omega : ¬ (op / 4096 % 16 = 0xE ∧ op % 256 = 0x9E)), if_pos ⟨h1, h2⟩]

/-- The `0x8xy4` branch of `CPU._execute`: raw sum stored first, then the
carry flag into `V[0xF]`, then the 8-bit mask. -/
theorem execute_8xy4 (rnd key op : ℕ) (s : CPU)
    (h8 : op / 4096 % 16 = 0x8) (h4 : op % 16 = 0x4) :
    execute rnd key op s =
      (let x := op / 256 % 16
       let y := op / 16 % 16
       let V1 := s.V.set x (s.V.getD x 0 + s.V.getD y 0)
       let V2 := V1.set 0xF (if V1.getD x 0 > 0xFF then 1 else 0)
       let V3 := V2.set x (V2.getD x 0 % 256)
       { s with V := V3 }) := by
  unfold execute
  rw [if_neg (by omega : ¬ op = 0x00E0), if_neg (by omega : ¬ op = 0x00EE),
    if_neg (by omega : ¬ op / 4096 % 16 = 0x1), if_neg (by omega : ¬ op / 4096 % 16 = 0x2),
    if_neg (by omega : ¬ op / 4096 % 16 = 0x3), if_neg (by omega : ¬ op / 4096 % 16 = 0x4),
    if_neg (by omega : ¬ op / 4096 % 16 = 0x5), if_neg (by omega : ¬ op / 4096 % 16 = 0x6),
    if_neg (by omega : ¬ op / 4096 % 16 = 0x7),
    if_neg (by omega : ¬ (op / 4096 % 16 = 0x8 ∧ op % 16 = 0x0)),
    if_neg (by omega : ¬ (op / 4096 % 16 = 0x8 ∧ op % 16 = 0x1)),
    if_neg (by omega : ¬ (op / 4096 % 16 = 0x8 ∧ op % 16 = 0x2)),
    if_neg (by omega : ¬ (op / 4096 % 16 = 0x8 ∧ op % 16 = 0x3)),
    if_pos ⟨h8, h4⟩]

/-- The `0x8xy5` branch of `CPU._execute`: borrow flag into `V[0xF]`
first, then the subtraction (reading the flag when `x = 0xF`), then the
8-bit mask. -/
theorem execute_8xy5 (rnd key op : ℕ) (s : CPU)
    (h8 : op / 4096 % 16 = 0x8) (h5 : op % 16 = 0x5) :
    execute rnd key op s =
      (let x := op / 256 % 16
       let y := op / 16 % 16
       let V1 := s.V.set 0xF (if s.V.getD x 0 > s.V.getD y 0 then 1 else 0)
       let V2 := V1.set x (V1.getD x 0 - V1.getD y 0)
       let V3 := V2.set x (V2.getD x 0 % 256)
       { s with V := V3 }) := by
  unfold execute
  rw [if_neg (by omega : ¬ op = 0x00E0), if_neg (by omega : ¬ op = 0x00EE),
    if_neg (by omega : ¬ op / 4096 % 16 = 0x1), if_neg (by omega : ¬ op / 4096 % 16 = 0x2),
    if_neg (by omega : ¬ op / 4096 % 16 = 0x3), if_neg (by omega : ¬ op / 4096 % 16 = 0x4),
    if_neg (by omega : ¬ op / 4096 % 16 = 0x5), if_neg (by omega : ¬ op / 4096 % 16 = 0x6),
    if_neg (by omega : ¬ op / 4096 % 16 = 0x7),
    if_neg (by omega : ¬ (op / 4096 % 16 = 0x8 ∧ op % 16 = 0x0)),
    if_neg (by omega : ¬ (op / 4096 % 16 = 0x8 ∧ op % 16 = 0x1)),
    if_neg (by omega : ¬ (op / 4096 % 16 = 0x8 ∧ op % 16 = 0x2)),
    if_neg (by omega : ¬ (op / 4096 % 16 = 0x8 ∧ op % 16 = 0x3)),
    if_neg (by omega : ¬ (op / 4096 % 16 = 0x8 ∧ op % 16 = 0x4)),
    if_pos ⟨h8, h5⟩]

/-- The `0x8xy7` branch of `CPU._execute`: borrow flag into `V[0xF]`
first, then `V[x] = V[y] - V[x]` with no 8-bit mask. -/
theorem execute_8xy7 (rnd key op : ℕ) (s : CPU)
    (h8 : op / 4096 % 16 = 0x8) (h7 : op % 16 = 0x7) :
    execute rnd key op s =
      (let x := op / 256 % 16
       let y := op / 16 % 16
       let V1 := s.V.set 0xF (if s.V.getD y 0 > s.V.getD x 0 then 1 else 0)
       let V2 := V1.set x (V1.getD y 0 - V1.getD x 0)
       { s with V := V2 }) := by
  unfold execute
  rw [if_neg (by omega : ¬ op = 0x00E0), if_neg (by omega : ¬ op = 0x00EE),
    if_neg (by omega : ¬ op / 4096 % 16 = 0x1), if_neg (by omega : ¬ op / 4096 % 16 = 0x2),
    if_neg (by omega : ¬ op / 4096 % 16 = 0x3), if_neg (by omega : ¬ op / 4096 % 16 = 0x4),
    if_neg (by omega : ¬ op / 4096 % 16 = 0x5), if_neg (by omega : ¬ op / 4096 % 16 = 0x6),
    if_neg (by omega : ¬ op / 4096 % 16 = 0x7),
    if_neg (by omega : ¬ (op / 4096 % 16 = 0x8 ∧ op % 16 = 0x0)),
    if_neg (by omega : ¬ (op / 4096 % 16 = 0x8 ∧ op % 16 = 0x1)),
    if_neg (by omega : ¬ (op / 4096 % 16 = 0x8 ∧ op % 16 = 0x2)),
    if_neg (by omega : ¬ (op / 4096 % 16 = 0x8 ∧ op % 16 = 0x3)),
    if_neg (by omega : ¬ (op / 4096 % 16 = 0x8 ∧ op % 16 = 0x4)),
    if_neg (by omega : ¬ (op / 4096 % 16 = 0x8 ∧ op % 16 = 0x5)),
    if_neg (by omega : ¬ (op / 4096 % 16 = 0x8 ∧ op % 16 = 0x6)),
    if_pos ⟨h8, h7⟩]

/-- An opcode matching none of the recognised patterns reaches the final
`else` branch: only the halt flag changes. -/
theorem execute_unknown (rnd key op : ℕ) (s : CPU) (h : ¬ recognized op) :
    execute rnd key op s = { s with halt := true } := by
  unfold recognized at h
  push_neg at h
  obtain ⟨q1, q2, q3, q4, q5, q6, q7, q8, q9, q10, q11, q12, q13, q14, q15, q16, q17, q18,
    q19, q20, q21, q22, q23, q24, q25, q26, q27, q28, q29, q30, q31, q32, q33, q34⟩ := h
  unfold execute
  rw [if_neg q1, if_neg q2, if_neg q3, if_neg q4, if_neg q5, if_neg q6, if_neg q7,
    if_neg q8, if_neg q9,
    if_neg (fun hc => q10 hc.1 hc.2), if_neg (fun hc => q11 hc.1 hc.2),
    if_neg (fun hc => q12 hc.1 hc.2), if_neg (fun hc => q13 hc.1 hc.2),
    if_neg (fun hc => q14 hc.1 hc.2), if_neg (fun hc => q15 hc.1 hc.2),
    if_neg (fun hc => q16 hc.1 hc.2), if_neg (fun hc => q17 hc.1 hc.2),
    if_neg (fun hc => q18 hc.1 hc.2),
    if_neg q19, if_neg q20, if_neg q21, if_neg q22, if_neg q23,
    if_neg (fun hc => q24 hc.1 hc.2), if_neg (fun hc => q25 hc.1 hc.2),
    if_neg (fun hc => q26 hc.1 hc.2), if_neg (fun hc => q27 hc.1 hc.2),
    if_neg (fun hc => q28 hc.1 hc.2), if_neg (fun hc => q29 hc.1 hc.2),
    if_neg (fun hc => q30 hc.1 hc.2), if_neg (fun hc => q31 hc.1 hc.2),
    if_neg (fun hc => q32 hc.1 hc.2), if_neg (fun hc => q33 hc.1 hc.2),
    if_neg (fun hc => q34 hc.1 hc.2)]

/-- Once the halt flag is set, `CPU.run` performs no further cycle. -/
theorem run_fuel_halted (rnd key n : ℕ) : ∀ s : CPU, s.halt = true →
    run_fuel rnd key n s = s := by
  induction n with
  | zero => exact fun s _ => rfl
  | succ n _ =>
      intro s h
      unfold run_fuel
      rw [if_pos h]

/-! ### Claim C5: the keyboard-test opcodes -/

/-- C5 (amended): with the key input left unimplemented, both `0xEx9E`
and `0xExA1` are no-ops, so neither ever skips: the cycle advances pc by
exactly 2 (the fetch pre-increment) and leaves registers, memory and the
screen unchanged. -/
theorem C5_key_opcodes_never_skip (rnd key : ℕ) (s : CPU)
    (h1 : fetchOp s / 4096 % 16 = 0xE)
    (h2 : fetchOp s % 256 = 0x9E ∨ fetchOp s % 256 = 0xA1) :
    (cycle rnd key s).pc = s.pc + 2 ∧ (cycle rnd key s).V = s.V ∧
      (cycle rnd key s).memory = s.memory ∧ (cycle rnd key s).screen = s.screen := by
  have hc : cycle rnd key s = clock_tick { s with pc := s.pc + 2 } := by
    show clock_tick (execute rnd key (fetchOp s) { s with pc := s.pc + 2 }) = _
    rw [execute_pass_E rnd key (fetchOp s) { s with pc := s.pc + 2 } h1 h2]
  obtain ⟨-, -, -, -, -, hpc, hmem, hV, -, -, -, hscr⟩ :=
    clock_tick_fields { s with pc := s.pc + 2 }
  rw [hc]
  exact ⟨hpc, hV, hmem, hscr⟩

/-- The machine state of the C5 counterexample: the next fetch yields
0xE0A1 (SKNP V0) and no key is ever pressed. -/
def c5state : CPU where
  halt := false
  pc := 0
  memory := [0xE0, 0xA1]
  V := List.replicate 16 0
  I := 0
  delay := 0
  sound := 0
  stack := List.replicate 16 0
  sp := 0
  screen := []
  clock_speed := 10
  tick := 0

/-- C5 counterexample: executing 0xExA1 does not skip: from pc = 0 the
cycle ends at pc = 2, not at pc = 4 as the claim requires. -/
theorem C5_sknp_does_not_skip :
    fetchOp c5state = 0xE0A1 ∧ (cycle 0 0 c5state).pc = c5state.pc + 2 ∧
      (cycle 0 0 c5state).pc ≠ c5state.pc + 4 :=
  ⟨by decide, by decide, by decide⟩

/-- C5 witness: a state fetching 0xE19E, on which the amended theorem
applies: pc advances by exactly 2. -/
theorem C5_key_opcodes_never_skip_witness :
    fetchOp { c5state with memory := [0xE1, 0x9E] } / 4096 % 16 = 0xE ∧
      (cycle 0 0 { c5state with memory := [0xE1, 0x9E] }).pc =
        { c5state with memory := [0xE1, 0x9E] }.pc + 2 :=
  ⟨by decide,
   (C5_key_opcodes_never_skip 0 0 { c5state with memory := [0xE1, 0x9E] }
     (by decide) (Or.inl (by decide))).1⟩

/-! ### Claim C7: unknown opcode halts the machine -/

/-- C7 (amended): an unrecognised fetched word halts the machine within
one cycle without raising: `run` stops after that cycle, and every
register, the stack and every memory cell keep their pre-fetch values,
except pc, advanced by 2 by the fetch, and except the delay and sound
timers, which the pacing tick that still runs on the halting cycle
decrements when that cycle lands on a 60 * clock_speed-th tick. -/
theorem C7_unknown_opcode_halts (rnd key : ℕ) (s : CPU) (hhalt : s.halt = false)
    (hrec : ¬ recognized (fetchOp s)) :
    (cycle rnd key s).halt = true ∧
    (cycle rnd key s).pc = s.pc + 2 ∧
    (cycle rnd key s).V = s.V ∧ (cycle rnd key s).memory = s.memory ∧
    (cycle rnd key s).I = s.I ∧ (cycle rnd key s).sp = s.sp ∧
    (cycle rnd key s).stack = s.stack ∧ (cycle rnd key s).screen = s.screen ∧
    (cycle rnd key s).delay =
      (if (s.tick + 1) % (60 * s.clock_speed) = 0 ∧ 0 < s.delay
       then s.delay - 1 else s.delay) ∧
    (cycle rnd key s).sound =
      (if (s.tick + 1) % (60 * s.clock_speed) = 0 ∧ 0 < s.sound
       then s.sound - 1 else s.sound) ∧
    ∀ n, run_fuel rnd key (n + 1) s = cycle rnd key s := by
  have hc : cycle rnd key s = clock_tick { s with pc := s.pc + 2, halt := true } := by
    show clock_tick (execute rnd key (fetchOp s) { s with pc := s.pc + 2 }) = _
    rw [execute_unknown rnd key (fetchOp s) _ hrec]
  obtain ⟨-, -, hdel, hsnd, hh, hpc, hmem, hV, hI, hstk, hsp, hscr⟩ :=
    clock_tick_fields { s with pc := s.pc + 2, halt := true }
  have hhalt2 : (cycle rnd key s).halt = true := by rw [hc]; exact hh
  refine ⟨hhalt2, ?_, ?_, ?_, ?_, ?_, ?_, ?_, ?_, ?_, ?_⟩
  · rw [hc]; exact hpc
  · rw [hc]; exact hV
  · rw [hc]; exact hmem
  · rw [hc]; exact hI
  · rw [hc]; exact hsp
  · rw [hc]; exact hstk
  · rw [hc]; exact hscr
  · rw [hc]; exact hdel
  · rw [hc]; exact hsnd
  · intro n
    unfold run_fuel
    rw [if_neg (by rw [hhalt]; exact fun hcon => Bool.false_ne_true hcon)]
    exact run_fuel_halted rnd key n _ hhalt2

/-- The machine state of the C7 counterexample: the next fetch yields
the unassigned word 0xFFFF while the tick counter stands one short of a
timer boundary and delay = 5. -/
def c7state : CPU where
  halt := false
  pc := 0
  memory := [0xFF, 0xFF]
  V := List.replicate 16 0
  I := 0
  delay := 5
  sound := 0
  stack := List.replicate 16 0
  sp := 0
  screen := []
  clock_speed := 10
  tick := 599

/-- C7 counterexample: the halting cycle still runs the pacing tick, so
at tick 599 the delay register drops from 5 to 4 although the claim
demands every register except pc unchanged. -/
theorem C7_delay_ticks_on_halting_cycle :
    ¬ recognized (fetchOp c7state) ∧ (cycle 0 0 c7state).halt = true ∧
      c7state.delay = 5 ∧ (cycle 0 0 c7state).delay = 4 :=
  ⟨by decide, by decide, rfl, by decide⟩

/-- C7 witness: applying the amended theorem to a concrete state (away
from a timer boundary, so the timers also stay): the machine halts with
only pc changed. -/
theorem C7_unknown_opcode_halts_witness :
    { c7state with tick := 0 }.halt = false ∧
      ¬ recognized (fetchOp { c7state with tick := 0 }) ∧
      (cycle 0 0 { c7state with tick := 0 }).halt = true ∧
      (cycle 0 0 { c7state with tick := 0 }).pc = { c7state with tick := 0 }.pc + 2 :=
  ⟨rfl, by decide,
   (C7_unknown_opcode_halts 0 0 { c7state with tick := 0 } rfl (by decide)).1,
   (C7_unknown_opcode_halts 0 0 { c7state with tick := 0 } rfl (by decide)).2.1⟩

/-! ### Claim C4: order of the flag write and the value store -/

/-- C4 (amended): for `0x8xy5` and `0x8xy7` the flag is written to VF
before the result is stored, so with `x = 0xF` the final VF is the stored
arithmetic result, computed from the already-written flag; for `0x8xy4`
the unmasked sum is stored first, the flag second and the 8-bit mask
third, so with `x = 0xF` the final VF equals the carry flag itself, not
the stored sum. -/
theorem C4_vf_aliasing (rnd key : ℕ) (s : CPU) (y : ℕ) (hy : y < 16) (hy15 : y ≠ 15)
    (hlen : s.V.length = 16) :
    (execute rnd key (0x8F04 + 16 * y) s).V.getD 15 0 =
      (if s.V.getD 15 0 + s.V.getD y 0 > 0xFF then 1 else 0) ∧
    (execute rnd key (0x8F05 + 16 * y) s).V.getD 15 0 =
      ((if s.V.getD 15 0 > s.V.getD y 0 then 1 else 0) - s.V.getD y 0) % 256 ∧
    (execute rnd key (0x8F07 + 16 * y) s).V.getD 15 0 =
      s.V.getD y 0 - (if s.V.getD y 0 > s.V.getD 15 0 then 1 else 0) := by
  have h15 : (15 : ℕ) < s.V.length := by omega
  refine ⟨?_, ?_, ?_⟩
  · have hx : (0x8F04 + 16 * y) / 256 % 16 = 15 := by omega
    have hyy : (0x8F04 + 16 * y) / 16 % 16 = y := by omega
    rw [execute_8xy4 rnd key _ s (by omega) (by omega)]
    simp only [hx, hyy]
    rw [getD_set_self _ _ _ _ (by simp [hlen]),
      getD_set_self _ _ _ _ (by simp [hlen]),
      getD_set_self _ _ _ _ h15]
    split_ifs <;> decide
  · have hx : (0x8F05 + 16 * y) / 256 % 16 = 15 := by omega
    have hyy : (0x8F05 + 16 * y) / 16 % 16 = y := by omega
    rw [execute_8xy5 rnd key _ s (by omega) (by omega)]
    simp only [hx, hyy]
    rw [getD_set_self _ _ _ _ (by simp [hlen]),
      getD_set_self _ _ _ _ (by simp [hlen]),
      getD_set_ne _ _ _ _ _ (fun hc => hy15 hc.symm),
      getD_set_self _ _ _ _ h15]
  · have hx : (0x8F07 + 16 * y) / 256 % 16 = 15 := by omega
    have hyy : (0x8F07 + 16 * y) / 16 % 16 = y := by omega
    rw [execute_8xy7 rnd key _ s (by omega) (by omega)]
    simp only [hx, hyy]
    rw [getD_set_self _ _ _ _ (by simp [hlen]),
      getD_set_ne _ _ _ _ _ (fun hc => hy15 hc.symm),
      getD_set_self _ _ _ _ h15]

/-- The register file of the C4 counterexample: VF = 0xFF, V0 = 1. -/
def c4state : CPU where
  halt := false
  pc := 0
  memory := []
  V := ((List.replicate 16 (0 : ℤ)).set 15 0xFF).set 0 1
  I := 0
  delay := 0
  sound := 0
  stack := List.replicate 16 0
  sp := 0
  screen := []
  clock_speed := 10
  tick := 0

/-- C4 counterexample: executing 0x8F04 (ADD VF, V0) with VF = 0xFF and
V0 = 1 leaves VF = 1, the carry flag; the claim, which puts the flag
write before the store, would make the final VF the stored masked sum
(0xFF + 1) mod 256 = 0. -/
theorem C4_add_stores_sum_before_flag :
    c4state.V.getD 15 0 = 0xFF ∧ c4state.V.getD 0 0 = 1 ∧
      (execute 0 0 0x8F04 c4state).V.getD 15 0 = 1 ∧
      ((0xFF + 1 : ℤ) % 256 = 0) ∧ (1 : ℤ) ≠ 0 :=
  ⟨by decide, by decide, by decide, by decide, by decide⟩

/-- C4 witness: the amended theorem applied to the concrete register
file of `c4state` with y = 0. -/
theorem C4_vf_aliasing_witness :
    (0 : ℕ) < 16 ∧ (0 : ℕ) ≠ 15 ∧ c4state.V.length = 16 ∧
      (execute 0 0 (0x8F04 + 16 * 0) c4state).V.getD 15 0 =
        (if c4state.V.getD 15 0 + c4state.V.getD 0 0 > 0xFF then 1 else 0) :=
  ⟨by decide, by decide, by decide,
   (C4_vf_aliasing 0 0 c4state 0 (by decide) (by decide) (by decide)).1⟩

/-! ### Claim C6: loading a program image -/

theorem reset_memory_length : reset.memory.length = 0xFFF := by
  show (store_hex_sprites (List.replicate 0xFFF 0)).length = 0xFFF
  unfold store_hex_sprites
  rw [List.length_append, List.length_drop, List.length_replicate]
  norm_num [hex_sprites]

/-- C6 (amended): `load` performs no bounds check.  A program that fits
below the memory end is copied to memory[0x200 ...] cell for cell, the
rest of memory and every other field are untouched; this theorem states
the fitting half (see the counterexample for the oversized half: instead
of failing, `load` silently extends memory past its fixed size). -/
theorem C6_load_copies_program (s : CPU) (program : List ℤ)
    (hpc : s.pc = 0x200) (hmem : s.memory.length = 0xFFF)
    (hfit : 0x200 + program.length ≤ 0xFFF) :
    (load s program).memory.length = 0xFFF ∧
    (∀ i, i < program.length →
      (load s program).memory.getD (0x200 + i) 0 = program.getD i 0) ∧
    (∀ j, j < 0x200 → (load s program).memory.getD j 0 = s.memory.getD j 0) ∧
    (∀ j, 0x200 + program.length ≤ j →
      (load s program).memory.getD j 0 = s.memory.getD j 0) ∧
    (load s program).pc = s.pc ∧ (load s program).V = s.V ∧
    (load s program).I = s.I ∧ (load s program).delay = s.delay ∧
    (load s program).sound = s.sound ∧ (load s program).stack = s.stack ∧
    (load s program).sp = s.sp ∧ (load s program).screen = s.screen ∧
    (load s program).halt = s.halt ∧ (load s program).tick = s.tick := by
  have htn : s.pc.toNat = 0x200 := by rw [hpc]; rfl
  have hA : (s.memory.take s.pc.toNat).length = 0x200 := by
    rw [List.length_take, htn, hmem]
    norm_num
  refine ⟨?_, ?_, ?_, ?_, rfl, rfl, rfl, rfl, rfl, rfl, rfl, rfl, rfl, rfl⟩
  · show (s.memory.take s.pc.toNat ++ program ++
      s.memory.drop (s.pc.toNat + program.length)).length = 0xFFF
    rw [List.length_append, List.length_append, hA, List.length_drop, htn, hmem]
    omega
  · intro i hi
    show (s.memory.take s.pc.toNat ++ program ++
      s.memory.drop (s.pc.toNat + program.length)).getD (0x200 + i) 0 = program.getD i 0
    rw [List.getD_eq_getElem?_getD, List.getElem?_append, if_pos (by
      rw [List.length_append, hA]; omega)]
    rw [List.getElem?_append, if_neg (by rw [hA]; omega), hA]
    simp only [Nat.add_sub_cancel_left]
    rw [← List.getD_eq_getElem?_getD]
  · intro j hj
    show (s.memory.take s.pc.toNat ++ program ++
      s.memory.drop (s.pc.toNat + program.length)).getD j 0 = s.memory.getD j 0
    rw [List.getD_eq_getElem?_getD, List.getElem?_append, if_pos (by
      rw [List.length_append, hA]; omega)]
    rw [List.getElem?_append, if_pos (by rw [hA]; omega), List.getElem?_take,
      if_pos (by omega), ← List.getD_eq_getElem?_getD]
  · intro j hj
    show (s.memory.take s.pc.toNat ++ program ++
      s.memory.drop (s.pc.toNat + program.length)).getD j 0 = s.memory.getD j 0
    have hlen2 : (s.memory.take s.pc.toNat ++ program).length = 0x200 + program.length := by
      rw [List.length_append, hA]
    rw [List.getD_eq_getElem?_getD, List.getElem?_append, if_neg (by rw [hlen2]; omega),
      hlen2, List.getElem?_drop, htn, ← List.getD_eq_getElem?_getD]
    congr 1
    omega

/-- C6 counterexample: a program of 0xE00 bytes does not fit
(0x200 + 0xE00 = 0x1000 > 0xFFF), yet `load` reports nothing: it copies
the bytes anyway and silently grows the memory list from 0xFFF to 0x1000
cells, so no OutOfBounds condition ever reaches the caller. -/
theorem C6_load_overflow_not_rejected :
    reset.memory.length = 0xFFF ∧
      0x200 + (List.replicate 0xE00 (0 : ℤ)).length > 0xFFF ∧
      (load reset (List.replicate 0xE00 (0 : ℤ))).memory.length = 0x1000 := by
  refine ⟨reset_memory_length, by rw [List.length_replicate]; norm_num, ?_⟩
  show (reset.memory.take reset.pc.toNat ++ List.replicate 0xE00 (0 : ℤ) ++
    reset.memory.drop (reset.pc.toNat + (List.replicate 0xE00 (0 : ℤ)).length)).length = 0x1000
  have htn : reset.pc.toNat = 0x200 := rfl
  rw [List.length_append, List.length_append, List.length_take, List.length_drop,
    List.length_replicate, htn, reset_memory_length]
  omega

/-- C6 witness: loading the two-byte program [1, 2] into a reset machine
puts 1 at 0x200 and leaves the memory size unchanged. -/
theorem C6_load_copies_program_witness :
    reset.pc = 0x200 ∧ reset.memory.length = 0xFFF ∧
      0x200 + ([1, 2] : List ℤ).length ≤ 0xFFF ∧
      (load reset [1, 2]).memory.getD 0x200 0 = 1 ∧
      (load reset [1, 2]).memory.length = 0xFFF :=
  ⟨rfl, reset_memory_length, by norm_num,
   by
    have := (C6_load_copies_program reset [1, 2] rfl reset_memory_length
      (by norm_num)).2.1 0 (by norm_num)
    simpa using this,
   (C6_load_copies_program reset [1, 2] rfl reset_memory_length (by norm_num)).1⟩

/-! ### Claim C1: the collision flag of 0xDxyn -/

/-- The machine state of the C1 failing input: a freshly reset machine
(so memory[0] holds the font byte 0xF0 and I = 0, V0 = VF = 0) whose
screen has pixel (0, 0) lit. -/
def c1state : CPU := { reset with screen := screenSet clearScreen 0 0 true }

/-- C1 (code bug): the 0xDxyn branch calls `Display.draw` but discards
its return value.  Executing 0xD001 draws the one-byte sprite
memory[0..1] = [0xF0] at (V0, V0) = (0, 0); that erases the lit pixel
(0, 0), so the draw call returns a true collision flag, yet the whole
register file — VF included — is unchanged after the instruction; the
claim (and the CHIP-8 reference cited at the top of the source) requires
VF = 1 here. -/
theorem C1_drw_discards_collision_flag :
    c1state.memory.getD 0 0 = 0xF0 ∧ c1state.I = 0 ∧
      (Display.draw c1state.screen 0 0 [0xF0]).2 = true ∧
      screenGet (execute 0 0 0xD001 c1state).screen 0 0 = false ∧
      (execute 0 0 0xD001 c1state).V = c1state.V ∧
      (execute 0 0 0xD001 c1state).V.getD 15 0 = 0 :=
  ⟨by decide, by decide, by decide, by decide, by decide, by decide⟩

/-! ### Claim C2: registers stay within one byte -/

/-- The register file of the C2/C3 failing inputs: V0 = 1 (C2) resp.
V0 = 5, V1 = 3 (C3). -/
def c2state : CPU where
  halt := false
  pc := 0
  memory := []
  V := (List.replicate 16 (0 : ℤ)).set 0 1
  I := 0
  delay := 0
  sound := 0
  stack := List.replicate 16 0
  sp := 0
  screen := []
  clock_speed := 10
  tick := 0

/-- C2 (code bug): 0x8xy7 (SUBN) and 0x8xyE (SHL) omit the 8-bit mask
the other arithmetic branches apply.  With V0 = 1, V1 = 0, SUBN V0,V1
leaves V0 = -1; with V0 = 0x80, SHL V0 leaves V0 = 0x100 = 256.  Both
values lie outside [0, 255], violating the stated invariant and the
source's own "each register: 8 bit" annotation. -/
theorem C2_registers_escape_byte_range :
    (execute 0 0 0x8017 c2state).V.getD 0 0 = -1 ∧
      (execute 0 0 0x801E
        { c2state with V := (List.replicate 16 (0 : ℤ)).set 0 0x80 }).V.getD 0 0 = 256 ∧
      ¬((0 : ℤ) ≤ -1) ∧ ¬((256 : ℤ) ≤ 255) :=
  ⟨by decide, by decide, by decide, by decide⟩

/-! ### Claim C3: the semantics of 0x8xy7 -/

/-- C3 (code bug): 0x8xy7 stores `V[y] - V[x]` without the mod-256 mask.
With V0 = 5, V1 = 3, SUBN V0,V1 leaves V0 = -2, where the claim requires
(3 - 5) mod 256 = 254; the flag half of the claim does hold here
(VF = 0, as V1 > V0 is false). -/
theorem C3_subn_missing_mask :
    (execute 0 0 0x8017
      { c2state with V := ((List.replicate 16 (0 : ℤ)).set 0 5).set 1 3 }).V.getD 0 0 = -2 ∧
      ((3 - 5 : ℤ) % 256 = 254) ∧ ((-2 : ℤ) ≠ 254) ∧
      (execute 0 0 0x8017
        { c2state with V := ((List.replicate 16 (0 : ℤ)).set 0 5).set 1 3 }).V.getD 15 0 = 0 :=
  ⟨by decide, by decide, by decide, by decide⟩

end Chip8
